import Mathlib

/-!
Verification development for the DNS-over-TLS supervisor of the gluetun
repository slice: a shallow embedding of the `looper` type of the
`internal/dns` package (supervisor loop `Run`, restart scheduler
`RunRestartTicker`, settings store `SetSettings`, fallback selector
`useUnencryptedDNS`) and of `findNordvpnServers` from
`internal/updater/nordvpn.go`, together with theorems about the embedded
definitions.

Concurrency is modelled by interpreting each blocking point of the Go code
(channel select, blocking receive, configurator call) as a step of a
deterministic transition system driven by an externally supplied event
schedule; the observable effects of each step (process launches, cancels,
exit-signal consumptions, DNS switches, waits, readiness signals) are
recorded in a trace.
-/

namespace Gluetun

/-! ### Data model: Go net.IP and settings.DNS -/

/-- Byte list of a Go `net.IP` value (length 4 or 16 in practice). -/
abbrev GoIP := List Nat

/-- Embedding of Go `net.IP.To4`: the 4-byte form when the address is IPv4
(a 4-byte slice, or a 16-byte slice carrying the v4-in-v6 prefix of ten zero
bytes followed by 0xff 0xff), and `none` otherwise. -/
def ipTo4 (ip : GoIP) : Option GoIP :=
  if ip.length = 4 then some ip
  else if ip.length = 16 ∧ ip.take 12 = [0, 0, 0, 0, 0, 0, 0, 0, 0, 0, 255, 255] then
    some (ip.drop 12)
  else none

/-- Embedding of `settings.DNS` as read and written by the looper.
`UpdatePeriod` is a Go `time.Duration` (an integer nanosecond count). -/
structure DNS where
  Enabled : Bool
  Providers : List String
  PlaintextAddress : Option GoIP
  KeepNameserver : Bool
  UpdatePeriod : Int
  VerbosityDetailsLevel : Nat
deriving DecidableEq, Repr

/-! ### Fallback selector: looper.useUnencryptedDNS -/

/-- Observable effects of `looper.useUnencryptedDNS`. -/
inductive FallbackAct
  | useDNSInternally (ip : GoIP)
  | useDNSSystemWide (ip : GoIP) (keepNameserver : Bool)
  | logErrorNoIPv4
deriving DecidableEq, Repr

/-- Embedding of the nested provider loop of `looper.useUnencryptedDNS`
(lines 280-292): scan the providers in configured order and, inside each
provider, its addresses in their given order, returning the first IPv4
address. `mapping` stands for `constants.DNSProviderMapping()[provider].IPs`,
which lives outside this repository slice. -/
def findProviderIPv4 (mapping : String → List GoIP) : List String → Option GoIP
  | [] => none
  | provider :: rest =>
    match (mapping provider).find? (fun ip => (ipTo4 ip).isSome) with
    | some ip => some ip
    | none => findProviderIPv4 mapping rest

/-- Embedding of `looper.useUnencryptedDNS` (lines 261-296). The `fallback`
flag only selects the wording of an informational log line in the Go code and
does not influence the effects, so it is an unused parameter here. -/
def useUnencryptedDNS (mapping : String → List GoIP) (_fallback : Bool) (settings : DNS) :
    List FallbackAct :=
  match settings.PlaintextAddress with
  | some targetIP =>
    [.useDNSInternally targetIP, .useDNSSystemWide targetIP settings.KeepNameserver]
  | none =>
    match findProviderIPv4 mapping settings.Providers with
    | some targetIP =>
      [.useDNSInternally targetIP, .useDNSSystemWide targetIP settings.KeepNameserver]
    | none => [.logErrorNoIPv4]

/-- Modelled from the spec: the pure selector
`selectFallback(settings, providerDirectory) -> optional IP` of section 4.3,
used as the specification-side characterisation that `useUnencryptedDNS` is
compared against: the plaintext address when set, otherwise the first IPv4
address in the concatenation of the providers' address lists. -/
def selectFallback (mapping : String → List GoIP) (settings : DNS) : Option GoIP :=
  match settings.PlaintextAddress with
  | some ip => some ip
  | none => (settings.Providers.flatMap mapping).find? (fun ip => (ipTo4 ip).isSome)

/-! ### Settings store: looper.SetSettings -/

/-- One Go `sync.RWMutex.Unlock` call: `some` of the new lock state when the
mutex was write-locked, `none` when it was not (Go raises the fatal run-time
error "sync: Unlock of unlocked RWMutex"). -/
def rwUnlock (writeLocked : Bool) : Option Bool :=
  if writeLocked then some false else none

/-- Observable outcome of one `looper.SetSettings` call. -/
structure SetSettingsExec where
  stored : DNS
  notifications : Nat
  unlockCalls : Nat
  fatalError : Bool
deriving DecidableEq, Repr

/-- Embedding of `looper.SetSettings` (lines 71-80), executing in order:
`Lock()`; register the deferred `Unlock()`; compare the update periods; store
the new settings; the explicit `Unlock()`; the conditional send on
`updateTicker`; then the deferred `Unlock()` at return. `notifications`
counts sends on the reschedule channel, `unlockCalls` counts `Unlock`
invocations, and `fatalError` reports a mutex-misuse fatal error. -/
def SetSettings (old new : DNS) : SetSettingsExec :=
  let writeLocked := true
  let updatePeriodDiffers := old.UpdatePeriod ≠ new.UpdatePeriod
  let stored := new
  match rwUnlock writeLocked with
  | none => { stored := stored, notifications := 0, unlockCalls := 1, fatalError := true }
  | some writeLocked2 =>
    let notifications := if updatePeriodDiffers then 1 else 0
    match rwUnlock writeLocked2 with
    | none =>
      { stored := stored, notifications := notifications, unlockCalls := 2, fatalError := true }
    | some _ =>
      { stored := stored, notifications := notifications, unlockCalls := 2, fatalError := false }

/-! ### Restart scheduler: looper.RunRestartTicker

The Go `time.Timer` is modelled by `running` (armed, will fire once the time
reaches `deadline`), `deadline` (absolute nanosecond time; a `Reset` with a
non-positive duration yields a deadline not after the current time, so the
timer fires immediately) and `pending` (a fired value sitting unreceived in
the channel `timer.C`). `timer.Stop()` returns true and disarms when the
timer is still running, and returns false when it already fired or was
already stopped, leaving `pending` untouched. -/

structure GoTimer where
  running : Bool
  deadline : Int
  pending : Bool
deriving DecidableEq, Repr

structure TickerState where
  timer : GoTimer
  timerIsStopped : Bool
  lastTick : Int
deriving DecidableEq, Repr

/-- Embedding of the initialisation of `looper.RunRestartTicker`
(lines 300-309): create a timer, stop it, and arm it only when the initial
`UpdatePeriod` is positive. `lastTick = 0` models `time.Unix(0, 0)`
(an unset last tick). Time starts at 0, so the armed deadline is the period. -/
def tickerInit (updatePeriod : Int) : TickerState :=
  if updatePeriod > 0 then
    { timer := { running := true, deadline := updatePeriod, pending := false },
      timerIsStopped := false, lastTick := 0 }
  else
    { timer := { running := false, deadline := 0, pending := false },
      timerIsStopped := true, lastTick := 0 }

/-- Embedding of the `<-timer.C` branch of `RunRestartTicker` (lines 317-321):
record `lastTick := now`, push a `Restart` command (the returned flag), re-read
the settings and `Reset` the timer with the current `UpdatePeriod`, whatever
its value. Note `timerIsStopped` is not updated by this branch. -/
def tickerTick (s : TickerState) (now updatePeriodNow : Int) : TickerState × Bool :=
  ({ timer := { running := true, deadline := now + updatePeriodNow, pending := false },
     timerIsStopped := s.timerIsStopped, lastTick := now }, true)

/-- Embedding of the `<-l.updateTicker` branch of `RunRestartTicker`
(lines 322-338): `if !timer.Stop() { <-timer.C }`, then either stay disarmed
(new period 0) or re-arm with `newUpdatePeriod - waited`. Returns `none` when
the branch blocks forever: `timer.Stop()` returns false although no fired
value is pending in `timer.C`, so the drain receive never completes. Unlike
the cancellation branch (line 313), this branch does not consult
`timerIsStopped` before draining. -/
def tickerReschedule (s : TickerState) (now newUpdatePeriod : Int) : Option TickerState :=
  match (if s.timer.running then some s.timer.pending
         else if s.timer.pending then some false
         else none) with
  | none => none
  | some pending =>
    if newUpdatePeriod = 0 then
      some { timer := { running := false, deadline := s.timer.deadline, pending := pending },
             timerIsStopped := true, lastTick := s.lastTick }
    else
      let waited : Int := if s.lastTick ≠ 0 then now - s.lastTick else 0
      let leftToWait := newUpdatePeriod - waited
      some { timer := { running := true, deadline := now + leftToWait, pending := pending },
             timerIsStopped := false, lastTick := s.lastTick }

/-- Events delivered to the scheduler: the timer firing into its channel, the
select receiving that fire (a tick, with the `UpdatePeriod` the accompanying
`GetSettings` returns), and a reschedule notification (with the new
`UpdatePeriod`). -/
inductive TickerEv
  | fire (now : Int)
  | tick (now : Int) (updatePeriodNow : Int)
  | resched (now : Int) (newUpdatePeriod : Int)
deriving DecidableEq, Repr

/-- Which scheduler events can occur in a given state: the timer only fires
when armed and past its deadline, and a tick is only received when a fired
value is pending. -/
def tickerAccepts (s : TickerState) : TickerEv → Bool
  | .fire now => s.timer.running && decide (s.timer.deadline ≤ now)
  | .tick _ _ => s.timer.pending
  | .resched _ _ => true

/-- One scheduler step; `none` models the branch blocking forever. The
returned flag reports whether a `Restart` command was pushed. -/
def tickerStep (s : TickerState) : TickerEv → Option (TickerState × Bool)
  | .fire _ =>
    some ({ timer := { running := false, deadline := s.timer.deadline, pending := true },
            timerIsStopped := s.timerIsStopped, lastTick := s.lastTick }, false)
  | .tick now p => some (tickerTick s now p)
  | .resched now p => (tickerReschedule s now p).map (fun s2 => (s2, false))

/-- Run the scheduler over an event schedule, counting pushed `Restart`
commands; `none` when an event is not acceptable in its state or a step
blocks forever. -/
def tickerRun (s : TickerState) : List TickerEv → Option (TickerState × Nat)
  | [] => some (s, 0)
  | e :: r =>
    if tickerAccepts s e then
      match tickerStep s e with
      | none => none
      | some (s2, pushed) =>
        match tickerRun s2 r with
        | none => none
        | some (s3, n) => some (s3, (if pushed then 1 else 0) + n)
    else none

/-! ### Supervisor loop: looper.Run

The loop is single-threaded; it only interacts with its environment at
blocking points: the selects of `waitForFirstStart` and
`waitForSubsequentStart`, the configurator calls of the setup/launch/readiness
sequence, and the select of the `Active` inner loop. Each blocking point is a
`Phase`; a `step` consumes one event (a command, a cancellation, a
configurator result, or an unexpected process exit) and runs the straight-line
Go code up to the next blocking point, emitting the observable actions.

The blocking receive `<-waitError` during teardown is not an event: the only
thing that can arrive there is the exit signal of the just-cancelled process
(its background sender always sends once the process exits), so it is modelled
as completing immediately while recording a `consumeExit` action.

Process handles are numbered by generation: `handle = some g` stands for a
`unboundCancel` referring to generation `g` whose process has not been
cancelled yet, and `pendingExit = some g` for an exit-wait goroutine of
generation `g` whose exit signal has not been consumed yet. `Run` starts with
`useUnencryptedDNS(false)` before `waitForFirstStart`; that call is covered by
the pure `useUnencryptedDNS` above, and the trace here begins at the first
blocking point. `UseDNSInternally`/`UseDNSSystemWide` after a successful
launch and the output-stream merge are fire-and-forget effects without
influence on the loop control flow, and are not recorded in the trace. -/

inductive Ev
  | cmdStart
  | cmdStop
  | cmdRestart
  | cancel
  | resOk
  | resErr
  | exitErr
deriving DecidableEq, Repr

inductive Act
  | signalReady
  | confStart (g : Nat)
  | confStartFail
  | cancelHandle (g : Nat)
  | spawnExitWait (g : Nat)
  | consumeExit (g : Nat)
  | useUnencrypted (fallback : Bool)
  | wait (seconds : Nat)
deriving DecidableEq, Repr

inductive Phase
  | firstStart
  | subseq
  | awaitHints
  | awaitKey
  | awaitConf
  | awaitStart
  | awaitReady
  | active
  | terminated
deriving DecidableEq, Repr

structure St where
  phase : Phase
  enabled : Bool
  triggeredRestart : Bool
  handle : Option Nat
  pendingExit : Option Nat
  nextGen : Nat
deriving DecidableEq, Repr

/-- Initial state of `Run`: inside the select of `waitForFirstStart`, with the
`Enabled` flag of the initial settings. -/
def looperInit (enabled0 : Bool) : St :=
  { phase := .firstStart, enabled := enabled0, triggeredRestart := false,
    handle := none, pendingExit := none, nextGen := 0 }

/-- Actions of `unboundCancel()`: a `cancelHandle` when the current cancel
function belongs to a not-yet-cancelled process, nothing when it is the
initial no-op or refers to an already cancelled context. -/
def cancelActs (h : Option Nat) : List Act :=
  match h with
  | some g => [.cancelHandle g]
  | none => []

/-- Actions of a blocking `<-waitError` drain. -/
def consumeActs (p : Option Nat) : List Act :=
  match p with
  | some g => [.consumeExit g]
  | none => []

/-- Phase after `continue`: the loop head runs `waitForSubsequentStart`, which
returns at once when enabled (next blocking point: `DownloadRootHints`) and
otherwise blocks in its select. -/
def contPhase (enabled : Bool) : Phase :=
  if enabled then .awaitHints else .subseq

/-- One transition of the supervisor loop: from the blocking point `s.phase`,
consume event `e`, and execute the Go code up to the next blocking point.
The second component lists the emitted actions in program order. -/
def step (s : St) (e : Ev) : St × List Act :=
  match s.phase, e with
  -- waitForFirstStart (lines 108-127)
  | .firstStart, .cmdStop => ({ s with enabled := false }, [])
  | .firstStart, .cmdRestart =>
    if s.enabled then ({ s with phase := .awaitHints }, [])
    else (s, [.signalReady])
  | .firstStart, .cmdStart => ({ s with enabled := true, phase := .awaitHints }, [])
  | .firstStart, .cancel => ({ s with phase := .terminated }, [])
  -- waitForSubsequentStart (lines 129-152)
  | .subseq, .cmdStop => (s, [])
  | .subseq, .cmdRestart =>
    if s.enabled then ({ s with phase := .awaitHints }, []) else (s, [])
  | .subseq, .cmdStart => ({ s with enabled := true, phase := .awaitHints }, [])
  | .subseq, .cancel =>
    ({ s with phase := .terminated, handle := none }, cancelActs s.handle)
  -- setup: DownloadRootHints (line 175)
  | .awaitHints, .resOk => ({ s with phase := .awaitKey }, [])
  | .awaitHints, .resErr => ({ s with phase := contPhase s.enabled }, [.wait 10])
  | .awaitHints, .cancel =>
    ({ s with phase := .terminated, handle := none }, cancelActs s.handle)
  -- setup: DownloadRootKey (line 179)
  | .awaitKey, .resOk => ({ s with phase := .awaitConf }, [])
  | .awaitKey, .resErr => ({ s with phase := contPhase s.enabled }, [.wait 10])
  | .awaitKey, .cancel =>
    ({ s with phase := .terminated, handle := none }, cancelActs s.handle)
  -- setup: MakeUnboundConf (line 183), then the deferred teardown (lines 188-193)
  | .awaitConf, .resOk =>
    if s.triggeredRestart then
      ({ s with phase := .awaitStart, triggeredRestart := false,
                handle := none, pendingExit := none },
       cancelActs s.handle ++ consumeActs s.pendingExit)
    else ({ s with phase := .awaitStart }, [])
  | .awaitConf, .resErr => ({ s with phase := contPhase s.enabled }, [.wait 10])
  | .awaitConf, .cancel =>
    ({ s with phase := .terminated, handle := none }, cancelActs s.handle)
  -- conf.Start (lines 194-202)
  | .awaitStart, .resOk =>
    ({ s with phase := .awaitReady, handle := some s.nextGen, nextGen := s.nextGen + 1 },
     [.confStart s.nextGen])
  | .awaitStart, .resErr =>
    ({ s with phase := contPhase s.enabled },
     [.confStartFail, .useUnencrypted true, .wait 10])
  -- conf.WaitForUnbound (lines 210-216), then spawn and signal (lines 217-223)
  | .awaitReady, .resOk =>
    ({ s with phase := .active, pendingExit := s.handle },
     (match s.handle with
      | some g => [.spawnExitWait g]
      | none => []) ++ [.signalReady])
  | .awaitReady, .resErr =>
    ({ s with phase := contPhase s.enabled, handle := none },
     cancelActs s.handle ++ [.useUnencrypted true, .wait 10])
  -- Active inner select (lines 226-256)
  | .active, .cancel =>
    ({ s with phase := .terminated, handle := none, pendingExit := none },
     cancelActs s.handle ++ consumeActs s.pendingExit)
  | .active, .cmdRestart =>
    ({ s with phase := contPhase s.enabled, triggeredRestart := true }, [])
  | .active, .cmdStart => (s, [])
  | .active, .cmdStop =>
    ({ s with phase := .subseq, enabled := false, handle := none, pendingExit := none },
     cancelActs s.handle ++ consumeActs s.pendingExit)
  | .active, .exitErr =>
    ({ s with phase := contPhase s.enabled, handle := none, pendingExit := none },
     consumeActs s.pendingExit ++ cancelActs s.handle ++ [.useUnencrypted true, .wait 10])
  -- any other pairing cannot be delivered at that blocking point (see accepts)
  | _, _ => (s, [])

/-- Which events can be delivered at each blocking point: commands and
cancellation at the selects, configurator results at the configurator calls
(which take the outer context during setup, hence also observe cancellation
there), and additionally the unexpected process exit in `Active`. A finished
loop accepts nothing. -/
def accepts (s : St) : Ev → Bool
  | .cmdStart => decide (s.phase = .firstStart ∨ s.phase = .subseq ∨ s.phase = .active)
  | .cmdStop => decide (s.phase = .firstStart ∨ s.phase = .subseq ∨ s.phase = .active)
  | .cmdRestart => decide (s.phase = .firstStart ∨ s.phase = .subseq ∨ s.phase = .active)
  | .cancel => decide (s.phase = .firstStart ∨ s.phase = .subseq ∨ s.phase = .awaitHints ∨
      s.phase = .awaitKey ∨ s.phase = .awaitConf ∨ s.phase = .active)
  | .resOk => decide (s.phase = .awaitHints ∨ s.phase = .awaitKey ∨ s.phase = .awaitConf ∨
      s.phase = .awaitStart ∨ s.phase = .awaitReady)
  | .resErr => decide (s.phase = .awaitHints ∨ s.phase = .awaitKey ∨ s.phase = .awaitConf ∨
      s.phase = .awaitStart ∨ s.phase = .awaitReady)
  | .exitErr => decide (s.phase = .active)

/-- Run the loop over an event schedule, concatenating the emitted actions. -/
def run (s : St) : List Ev → St × List Act
  | [] => (s, [])
  | e :: r =>
    let p := step s e
    let q := run p.1 r
    (q.1, p.2 ++ q.2)

/-- A schedule is valid from a state when every event is acceptable at the
blocking point it is delivered to. -/
def Valid (s : St) : List Ev → Bool
  | [] => true
  | e :: r => accepts s e && Valid (step s e).1 r

/-- A state is reachable when some valid schedule leads to it from the initial
state of `Run` with some initial `Enabled` flag. -/
def Reach (s : St) : Prop :=
  ∃ enabled0 events, Valid (looperInit enabled0) events = true ∧
    (run (looperInit enabled0) events).1 = s

/-! ### Trace projections for the handle-lifecycle claims -/

/-- Generations of `conf.Start` successes, in trace order. -/
def startsOf : List Act → List Nat
  | [] => []
  | .confStart g :: t => g :: startsOf t
  | _ :: t => startsOf t

/-- Generations of process cancellations, in trace order. -/
def cancelsOf : List Act → List Nat
  | [] => []
  | .cancelHandle g :: t => g :: cancelsOf t
  | _ :: t => cancelsOf t

/-- Generations of spawned exit-wait goroutines, in trace order. -/
def spawnsOf : List Act → List Nat
  | [] => []
  | .spawnExitWait g :: t => g :: spawnsOf t
  | _ :: t => spawnsOf t

/-- Generations of consumed exit signals, in trace order. -/
def consumesOf : List Act → List Nat
  | [] => []
  | .consumeExit g :: t => g :: consumesOf t
  | _ :: t => consumesOf t

/-- Prefix property of a trace: the number of launched instances never
exceeds the number of cancelled instances by more than one — at any instant
at most one resolver process is live. -/
def TraceA (t : List Act) : Prop :=
  ∀ p, p <+: t → (startsOf p).length ≤ (cancelsOf p).length + 1

/-- Launch-point property of a trace: whenever `conf.Start` succeeds, every
previously launched instance has already been cancelled and every previously
spawned exit signal has already been consumed. -/
def TraceB (t : List Act) : Prop :=
  ∀ p g q, t = p ++ Act.confStart g :: q →
    cancelsOf p = startsOf p ∧ consumesOf p = spawnsOf p

/-- Shape of the loop variables at each blocking point: which phases are
enabled, whether a deferred-teardown handle is live, and that the exit-wait
goroutine exists exactly in `Active` (and, kept across a triggered restart,
during the following setup). -/
def phaseInv (s : St) : Prop :=
  match s.phase with
  | .firstStart =>
    s.handle = none ∧ s.pendingExit = none ∧ s.triggeredRestart = false ∧ s.nextGen = 0
  | .subseq =>
    s.enabled = false ∧ s.handle = none ∧ s.pendingExit = none ∧ s.triggeredRestart = false
  | .awaitHints | .awaitKey | .awaitConf =>
    s.enabled = true ∧
    (s.triggeredRestart = true → s.handle.isSome = true ∧ s.pendingExit = s.handle) ∧
    (s.triggeredRestart = false → s.handle = none ∧ s.pendingExit = none)
  | .awaitStart =>
    s.enabled = true ∧ s.triggeredRestart = false ∧ s.handle = none ∧ s.pendingExit = none
  | .awaitReady =>
    s.enabled = true ∧ s.triggeredRestart = false ∧ s.handle.isSome = true ∧
      s.pendingExit = none
  | .active =>
    s.enabled = true ∧ s.triggeredRestart = false ∧ s.handle.isSome = true ∧
      s.pendingExit = s.handle
  | .terminated => s.handle = none

/-- Induction invariant tying a reachable state to the trace that produced
it: generations are started in order (one `confStart` per generation), every
generation except a live handle has been cancelled, spawned exit signals are
consumed in order with at most the `pendingExit` one outstanding, and spawn
generations are strictly increasing and fresh. -/
structure Inv (s : St) (t : List Act) : Prop where
  hstarts : startsOf t = List.range s.nextGen
  hcancels : cancelsOf t = List.range (match s.handle with | some g => g | none => s.nextGen)
  hhandle : ∀ g, s.handle = some g → g + 1 = s.nextGen
  hspawn : spawnsOf t =
    consumesOf t ++ (match s.pendingExit with | some g => [g] | none => [])
  hspawnLt : ∀ x ∈ spawnsOf t, x < s.nextGen
  hspawnSorted : List.Pairwise (· < ·) (spawnsOf t)
  hfresh : ∀ g, s.handle = some g → s.pendingExit = none → ∀ x ∈ spawnsOf t, x < g
  hphase : phaseInv s

/-- Event schedule driving the loop from startup into `Active`: a `Start`
command, three setup successes, a launch success and a readiness success. -/
def eventsToActive : List Ev :=
  [.cmdStart, .resOk, .resOk, .resOk, .resOk, .resOk]

/-- Schedule reaching `AwaitingReenable`: activate, then `Stop`. -/
def eventsToReenable : List Ev := eventsToActive ++ [.cmdStop]

/-- Schedule with one triggered restart cycle followed by cancellation in
`Active`. -/
def eventsRestartCycle : List Ev :=
  eventsToActive ++ [.cmdRestart, .resOk, .resOk, .resOk, .resOk, .resOk, .cancel]

/-! ### Updater: findNordvpnServers (internal/updater/nordvpn.go)

Only the pure part after the HTTP fetch and JSON decode is embedded: the
input is the decoded list of JSON server records. `net.ParseIP` is Go
standard library and is passed in as the parameter `parseIP`; Go returns
`(nil, nil, err)` on the first invalid record, embedded as `Except.error`. -/

structure NordFeatures where
  UDP : Bool
  TCP : Bool
deriving DecidableEq, Repr

structure NordJSONServer where
  IPAddress : String
  Name : String
  Country : String
  Features : NordFeatures
deriving DecidableEq, Repr

/-- Embedding of `models.NordvpnServer`. `Number` is a uint16 value. -/
structure NordvpnServer where
  Region : String
  Number : Nat
  IP : GoIP
  TCP : Bool
  UDP : Bool
deriving DecidableEq, Repr

/-- The comparison closure passed to `sort.Slice` (lines 57-62): by country,
and by name inside one country. -/
def nordvpnLess (a b : NordJSONServer) : Bool :=
  if a.Country = b.Country then decide (a.Name < b.Name) else decide (a.Country < b.Country)

/-- Non-strict order induced by `nordvpnLess`; a sort under the strict
comparison is sorted under this relation. -/
def nordLE (a b : NordJSONServer) : Bool := ! nordvpnLess b a

/-- Embedding of `sort.Slice(data, less)`: a permutation of the data sorted
under `nordLE`, modelled with mergeSort (sort.Slice does not promise
stability, and no claim depends on which sorted permutation is produced). -/
def nordvpnSort (data : List NordJSONServer) : List NordJSONServer :=
  data.mergeSort nordLE

/-- Embedding of `strconv.ParseUint(s, 10, 16)`: nonempty, decimal digits
only, value below 2^16; `none` models a non-nil error (including overflow). -/
def parseUint16 (s : String) : Option Nat :=
  if s.toList = [] then none
  else if s.toList.all (fun c => c.isDigit) then
    let n := s.toList.foldl (fun acc c => acc * 10 + (c.toNat - 48)) 0
    if n < 65536 then some n else none
  else none

/-- The part of the name after its first '#', per
`strings.IndexRune(name, '#')` and `name[i+1:]`; `none` when no '#' occurs. -/
def hashSuffix (name : String) : Option String :=
  match name.toList.findIdx? (fun c => c = '#') with
  | none => none
  | some i => some (String.mk (name.toList.drop (i + 1)))

/-- Rendering of Go's %q verb on a string (quotation marks around the text;
escaping of exotic characters is not reproduced). -/
def goQuote (s : String) : String := "\"" ++ s ++ "\""

/-- Embedding of the per-record validation and conversion inside the loop of
`findNordvpnServers` (lines 69-90): parse the IP and require IPv4, extract the
'#'-delimited id suffix, parse it as uint16, and build the server record. -/
def convertNordServer (parseIP : String → Option GoIP) (s : NordJSONServer) :
    Except String NordvpnServer :=
  let badIP : Except String NordvpnServer :=
    .error ("IP address " ++ goQuote s.IPAddress ++ " is not a valid IPv4 address for server "
      ++ goQuote s.Name)
  match parseIP s.IPAddress with
  | none => badIP
  | some ip =>
    if (ipTo4 ip).isNone then badIP
    else
      match hashSuffix s.Name with
      | none => .error ("No ID in server name " ++ goQuote s.Name)
      | some idString =>
        match parseUint16 idString with
        | none => .error ("Bad ID in server name " ++ goQuote s.Name)
        | some id =>
          .ok { Region := s.Country, Number := id, IP := ip,
                TCP := s.Features.TCP, UDP := s.Features.UDP }

/-- The warning recorded for a server supporting neither openvpn TCP nor UDP
(line 66). -/
def nordWarning (s : NordJSONServer) : String :=
  "server " ++ goQuote s.Name ++ " does not support TCP and UDP for openvpn"

/-- Whether a record survives the TCP/UDP filter (line 65). -/
def keepNordServer (s : NordJSONServer) : Bool := s.Features.TCP || s.Features.UDP

/-- Embedding of the loop of `findNordvpnServers` (lines 64-92) over the
sorted data: skip (with one warning) records supporting neither protocol,
convert the rest, and abort with the first conversion error. -/
def nordLoop (parseIP : String → Option GoIP) :
    List NordJSONServer → Except String (List NordvpnServer × List String)
  | [] => .ok ([], [])
  | s :: rest =>
    if keepNordServer s then
      match convertNordServer parseIP s with
      | .error e => .error e
      | .ok server =>
        match nordLoop parseIP rest with
        | .error e => .error e
        | .ok (servers, warnings) => .ok (server :: servers, warnings)
    else
      match nordLoop parseIP rest with
      | .error e => .error e
      | .ok (servers, warnings) => .ok (servers, nordWarning s :: warnings)

/-- Embedding of `findNordvpnServers` after fetch and decode: sort by
(country, name), then run the validation/conversion loop. -/
def findNordvpnServers (parseIP : String → Option GoIP) (data : List NordJSONServer) :
    Except String (List NordvpnServer × List String) :=
  nordLoop parseIP (nordvpnSort data)

/-! ### Lemmas: fallback selector -/

lemma findProviderIPv4_eq (mapping : String → List GoIP) :
    ∀ providers : List String,
      findProviderIPv4 mapping providers =
        (providers.flatMap mapping).find? (fun ip => (ipTo4 ip).isSome)
  | [] => rfl
  | p :: rest => by
    simp only [findProviderIPv4, List.flatMap_cons, List.find?_append,
      findProviderIPv4_eq mapping rest]
    cases (mapping p).find? (fun ip => (ipTo4 ip).isSome) <;> rfl

/-- Claim C6: for every settings value, the plaintext address is the applied
DNS target when set; otherwise the providers are scanned in configured order
(and each provider's addresses in their given order) and the first IPv4
address found is applied (internally and system-wide); when no IPv4 address
exists, no DNS switch is performed and an operational error is logged. The
right-hand side is phrased through the spec-side selector `selectFallback`. -/
theorem claim_C6_fallback_selection :
    ∀ (mapping : String → List GoIP) (fallback : Bool) (settings : DNS),
      useUnencryptedDNS mapping fallback settings =
        (match selectFallback mapping settings with
         | some targetIP =>
           [.useDNSInternally targetIP, .useDNSSystemWide targetIP settings.KeepNameserver]
         | none => [.logErrorNoIPv4]) := by
  intro mapping fallback settings
  unfold useUnencryptedDNS selectFallback
  cases settings.PlaintextAddress with
  | some ip => rfl
  | none =>
    rw [findProviderIPv4_eq]

/-! ### Claim theorems: settings store and restart scheduler -/

/-- Claim C4 (code bug): every `SetSettings` call stores the new settings and
notifies the reschedule channel exactly when the update period differs, but
it invokes `Unlock` twice (the explicit call plus the deferred one) and hence
ends in the fatal "sync: Unlock of unlocked RWMutex" run-time error instead
of returning normally. -/
theorem claim_C4_set_settings_double_unlock :
    ∀ old new : DNS,
      (SetSettings old new).stored = new ∧
      (SetSettings old new).notifications =
        (if old.UpdatePeriod = new.UpdatePeriod then 0 else 1) ∧
      (SetSettings old new).unlockCalls = 2 ∧
      (SetSettings old new).fatalError = true := by
  intro old new
  by_cases h : old.UpdatePeriod = new.UpdatePeriod <;>
    simp [SetSettings, rwUnlock, h]

/-- Claim C3 (code bug): a reschedule notification arriving while the timer
is already disarmed (here: right after startup with `UpdatePeriod = 0`, the
period being changed to one hour) blocks forever in the `<-timer.C` drain,
because `timer.Stop()` returns false although nothing is pending. When the
timer is armed the branch completes and re-arms so the next tick fires
`newPeriod - elapsed` after the notification (here 60 - 60 = 0: immediately). -/
theorem claim_C3_reschedule_drain :
    tickerAccepts (tickerInit 0) (.resched 5 3600) = true ∧
    tickerStep (tickerInit 0) (.resched 5 3600) = none ∧
    tickerReschedule
        { timer := { running := true, deadline := 90, pending := false },
          timerIsStopped := false, lastTick := 40 } 100 60 =
      some
        { timer := { running := true, deadline := 100, pending := false },
          timerIsStopped := false, lastTick := 40 } := by
  refine ⟨by decide, by decide, by decide⟩

/-- Claim C5, counterexample: starting from an armed timer with period 60,
the timer fires at time 60 and the tick is received after the stored period
has become 0; the tick pushes one `Restart` command and re-arms the timer
(deadline 60 = now, so it fires again immediately) instead of leaving it
disarmed — the timer both fires and pushes a `Restart` while the configured
refresh period is 0. -/
theorem claim_C5_counterexample :
    tickerRun (tickerInit 60) [.fire 60, .tick 60 0] =
      some
        ({ timer := { running := true, deadline := 60, pending := false },
           timerIsStopped := false, lastTick := 60 }, 1) := by
  decide

/-- Claim C5 as amended: with `UpdatePeriod = 0` the timer is disarmed at
startup; a settings change keeping the period at 0 sends no reschedule
notification; a reschedule notification reading period 0 from an armed timer
disarms it; but a tick received when the current period has become 0 pushes a
`Restart` and re-arms the timer with a zero timeout (deadline = now), so it
fires again immediately — disarming only happens through the reschedule
branch. -/
theorem claim_C5_period_zero :
    ((tickerInit 0).timer.running = false ∧ (tickerInit 0).timerIsStopped = true) ∧
    (∀ old new : DNS, old.UpdatePeriod = new.UpdatePeriod →
      (SetSettings old new).notifications = 0) ∧
    (∀ (s : TickerState) (now : Int), s.timer.running = true →
      tickerReschedule s now 0 =
        some
          { timer :=
              { running := false, deadline := s.timer.deadline,
                pending := s.timer.pending },
            timerIsStopped := true, lastTick := s.lastTick }) ∧
    (∀ (s : TickerState) (now : Int),
      (tickerTick s now 0).1.timer.running = true ∧
      (tickerTick s now 0).1.timer.deadline = now ∧
      (tickerTick s now 0).2 = true) := by
  refine ⟨by decide, ?_, ?_, ?_⟩
  · intro old new h
    simp [SetSettings, rwUnlock, h]
  · intro s now h
    simp [tickerReschedule, h]
  · intro s now
    refine ⟨rfl, ?_, rfl⟩
    simp [tickerTick]

/-- Witness for claim C5: the amended statement applied at concrete inputs. -/
theorem claim_C5_period_zero_witness :
    (SetSettings
        { Enabled := false, Providers := [], PlaintextAddress := none,
          KeepNameserver := false, UpdatePeriod := 7, VerbosityDetailsLevel := 0 }
        { Enabled := true, Providers := ["cloudflare"], PlaintextAddress := none,
          KeepNameserver := true, UpdatePeriod := 7, VerbosityDetailsLevel := 1 }).notifications
      = 0 ∧
    tickerReschedule
        { timer := { running := true, deadline := 11, pending := false },
          timerIsStopped := false, lastTick := 4 } 9 0 =
      some
        { timer := { running := false, deadline := 11, pending := false },
          timerIsStopped := true, lastTick := 4 } :=
  ⟨claim_C5_period_zero.2.1 _ _ rfl, claim_C5_period_zero.2.2.1 _ 9 rfl⟩

/-! ### Lemmas: nordvpn sorting order -/

lemma nordLE_iff (a b : NordJSONServer) :
    nordLE a b = true ↔
      (a.Country < b.Country ∨ (a.Country = b.Country ∧ a.Name ≤ b.Name)) := by
  unfold nordLE nordvpnLess
  by_cases h : b.Country = a.Country
  · simp [h, not_lt, lt_irrefl]
  · rw [if_neg h]
    simp only [Bool.not_eq_true', decide_eq_false_iff_not, not_lt]
    constructor
    · intro hle
      rcases lt_or_eq_of_le hle with hlt | heq
      · exact Or.inl hlt
      · exact absurd heq.symm h
    · rintro (hlt | ⟨heq, _⟩)
      · exact le_of_lt hlt
      · exact le_of_eq heq

lemma nordLE_trans (a b c : NordJSONServer) (h1 : nordLE a b = true)
    (h2 : nordLE b c = true) : nordLE a c = true := by
  rw [nordLE_iff] at h1 h2 ⊢
  rcases h1 with h1 | ⟨e1, n1⟩ <;> rcases h2 with h2 | ⟨e2, n2⟩
  · exact Or.inl (lt_trans h1 h2)
  · exact Or.inl (lt_of_lt_of_le h1 (le_of_eq e2))
  · exact Or.inl (lt_of_le_of_lt (le_of_eq e1) h2)
  · exact Or.inr ⟨e1.trans e2, le_trans n1 n2⟩

lemma nordLE_total (a b : NordJSONServer) : (nordLE a b || nordLE b a) = true := by
  simp only [Bool.or_eq_true, nordLE_iff]
  rcases lt_trichotomy a.Country b.Country with hc | hc | hc
  · exact Or.inl (Or.inl hc)
  · rcases le_total a.Name b.Name with hn | hn
    · exact Or.inl (Or.inr ⟨hc, hn⟩)
    · exact Or.inr (Or.inr ⟨hc.symm, hn⟩)
  · exact Or.inr (Or.inl hc)

lemma nordLoop_eq (parseIP : String → Option GoIP) :
    ∀ l : List NordJSONServer,
      nordLoop parseIP l =
        (match (l.filter keepNordServer).mapM (convertNordServer parseIP) with
         | .error e => .error e
         | .ok servers =>
           .ok (servers, (l.filter (fun s => ! keepNordServer s)).map nordWarning))
  | [] => rfl
  | s :: rest => by
    have ih := nordLoop_eq parseIP rest
    by_cases hk : keepNordServer s = true
    · have hkeep : List.filter keepNordServer (s :: rest)
          = s :: List.filter keepNordServer rest := by
        simp [List.filter_cons, hk]
      have hwarn : List.filter (fun x => ! keepNordServer x) (s :: rest)
          = List.filter (fun x => ! keepNordServer x) rest := by
        simp [List.filter_cons, hk]
      cases hc : convertNordServer parseIP s with
      | error e =>
        simp only [nordLoop, if_pos hk, hc, hkeep, List.mapM_cons]
        rfl
      | ok server =>
        cases hr : (rest.filter keepNordServer).mapM (convertNordServer parseIP) with
        | error e =>
          simp only [nordLoop, if_pos hk, hc, ih, hr, hkeep, List.mapM_cons]
          rfl
        | ok servers =>
          simp only [nordLoop, if_pos hk, hc, ih, hr, hkeep, hwarn, List.mapM_cons]
          rfl
    · have hkeep : List.filter keepNordServer (s :: rest)
          = List.filter keepNordServer rest := by
        simp [List.filter_cons, hk]
      have hwarn : List.filter (fun x => ! keepNordServer x) (s :: rest)
          = s :: List.filter (fun x => ! keepNordServer x) rest := by
        simp [List.filter_cons, hk]
      cases hr : (rest.filter keepNordServer).mapM (convertNordServer parseIP) with
      | error e =>
        simp only [nordLoop, if_neg hk, ih, hr, hkeep]
      | ok servers =>
        simp only [nordLoop, if_neg hk, ih, hr, hkeep, hwarn]
        rfl

/-- Claim C10: `findNordvpnServers` sorts the decoded records by country and,
inside one country, by name; records supporting neither openvpn TCP nor UDP
are excluded, each contributing exactly one warning (in sorted order); the
remaining records are converted in sorted order, and the first record with a
non-IPv4 address or a name lacking a '#'-delimited uint16 suffix turns the
whole call into an error carrying no server list. -/
theorem claim_C10_find_nordvpn_servers :
    ∀ (parseIP : String → Option GoIP) (data : List NordJSONServer),
      List.Pairwise (fun a b => nordLE a b = true) (nordvpnSort data) ∧
      List.Pairwise (fun a b => nordLE a b = true)
        ((nordvpnSort data).filter keepNordServer) ∧
      findNordvpnServers parseIP data =
        (match ((nordvpnSort data).filter keepNordServer).mapM (convertNordServer parseIP) with
         | .error e => .error e
         | .ok servers =>
           .ok (servers,
                ((nordvpnSort data).filter (fun s => ! keepNordServer s)).map nordWarning)) := by
  intro parseIP data
  have hsorted := List.sorted_mergeSort nordLE_trans nordLE_total data
  exact ⟨hsorted, hsorted.filter keepNordServer, nordLoop_eq parseIP (nordvpnSort data)⟩

/-! ### Lemmas: supervisor-loop trace machinery -/

lemma startsOf_append : ∀ t u, startsOf (t ++ u) = startsOf t ++ startsOf u
  | [], _ => rfl
  | a :: t, u => by cases a <;> simp [startsOf, startsOf_append t u]

lemma cancelsOf_append : ∀ t u, cancelsOf (t ++ u) = cancelsOf t ++ cancelsOf u
  | [], _ => rfl
  | a :: t, u => by cases a <;> simp [cancelsOf, cancelsOf_append t u]

lemma spawnsOf_append : ∀ t u, spawnsOf (t ++ u) = spawnsOf t ++ spawnsOf u
  | [], _ => rfl
  | a :: t, u => by cases a <;> simp [spawnsOf, spawnsOf_append t u]

lemma consumesOf_append : ∀ t u, consumesOf (t ++ u) = consumesOf t ++ consumesOf u
  | [], _ => rfl
  | a :: t, u => by cases a <;> simp [consumesOf, consumesOf_append t u]

lemma prefix_append_cases {α : Type} {p t u : List α} (hp : p <+: t ++ u) :
    p <+: t ∨ ∃ p2, p = t ++ p2 ∧ p2 <+: u := by
  obtain ⟨r, hr⟩ := hp
  rcases List.append_eq_append_iff.mp hr with ⟨a2, ha1, _⟩ | ⟨c2, hc1, hc2⟩
  · exact Or.inl ⟨a2, ha1.symm⟩
  · exact Or.inr ⟨c2, hc1, ⟨r, hc2.symm⟩⟩

lemma startsOf_sublist {l1 l2 : List Act} (h : l1.Sublist l2) :
    (startsOf l1).Sublist (startsOf l2) := by
  induction h with
  | slnil => exact List.Sublist.refl _
  | cons a _ ih =>
    cases a
    case confStart g => exact ih.trans (List.sublist_cons_self _ _)
    all_goals simpa [startsOf] using ih
  | cons₂ a _ ih =>
    cases a
    case confStart g => exact List.Sublist.cons₂ _ ih
    all_goals simpa [startsOf] using ih

lemma startsOf_eq_nil_of_prefix {p u : List Act} (hp : p <+: u) (hu : startsOf u = []) :
    startsOf p = [] :=
  List.sublist_nil.mp (hu ▸ startsOf_sublist hp.sublist)

lemma prefix_singleton {α : Type} {p : List α} {x : α} (h : p <+: [x]) :
    p = [] ∨ p = [x] := by
  obtain ⟨r, hr⟩ := h
  cases p with
  | nil => exact Or.inl rfl
  | cons a l =>
    rw [List.cons_append] at hr
    obtain ⟨ha, hlr⟩ := List.cons_eq_cons.mp hr
    obtain ⟨hl, _⟩ := List.append_eq_nil.mp hlr
    exact Or.inr (by rw [ha, hl])

lemma traceA_append_no_start {t u : List Act} (hA : TraceA t) (hu : startsOf u = []) :
    TraceA (t ++ u) := by
  intro p hp
  rcases prefix_append_cases hp with hp | ⟨p2, rfl, hp2⟩
  · exact hA p hp
  · have h2 : startsOf p2 = [] := startsOf_eq_nil_of_prefix hp2 hu
    rw [startsOf_append, cancelsOf_append, h2, List.append_nil]
    have hbase := hA t (List.prefix_refl t)
    have : (cancelsOf t).length ≤ (cancelsOf t ++ cancelsOf p2).length := by
      simp [List.length_append]
    omega

lemma traceA_append_single_start {t : List Act} {g : Nat} (hA : TraceA t)
    (heq : (cancelsOf t).length = (startsOf t).length) :
    TraceA (t ++ [Act.confStart g]) := by
  intro p hp
  rcases prefix_append_cases hp with hp | ⟨p2, rfl, hp2⟩
  · exact hA p hp
  · rcases prefix_singleton hp2 with rfl | rfl
    · rw [List.append_nil]
      exact hA t (List.prefix_refl t)
    · rw [startsOf_append, cancelsOf_append]
      have hbase := hA t (List.prefix_refl t)
      simp only [startsOf, cancelsOf, List.length_append, List.length_cons, List.length_nil]
      omega

lemma traceB_append_no_start {t u : List Act} (hB : TraceB t) (hu : startsOf u = []) :
    TraceB (t ++ u) := by
  intro p g q hpq
  rcases List.append_eq_append_iff.mp hpq with ⟨a2, _, ha2⟩ | ⟨c2, hc1, hc2⟩
  · exfalso
    have hx : startsOf u = startsOf a2 ++ startsOf (Act.confStart g :: q) := by
      rw [ha2, startsOf_append]
    rw [hu] at hx
    have := (List.append_eq_nil.mp hx.symm).2
    simp [startsOf] at this
  · cases c2 with
    | nil =>
      exfalso
      have h2 : Act.confStart g :: q = u := by simpa using hc2
      have hx : startsOf u = g :: startsOf q := by rw [← h2]; rfl
      rw [hu] at hx
      exact List.cons_ne_nil _ _ hx.symm
    | cons hd tl =>
      rw [List.cons_append] at hc2
      obtain ⟨hhd, _⟩ := List.cons_eq_cons.mp hc2
      exact hB p g tl (by rw [hc1, ← hhd])

lemma traceB_append_single_start {t : List Act} {g : Nat} (hB : TraceB t)
    (hc : cancelsOf t = startsOf t) (hs : consumesOf t = spawnsOf t) :
    TraceB (t ++ [Act.confStart g]) := by
  intro p g2 q hpq
  rcases List.append_eq_append_iff.mp hpq with ⟨a2, ha1, ha2⟩ | ⟨c2, hc1, hc2⟩
  · cases a2 with
    | nil =>
      rw [List.append_nil] at ha1
      subst ha1
      exact ⟨hc, hs⟩
    | cons b bl =>
      exfalso
      rw [List.cons_append] at ha2
      obtain ⟨_, hbl⟩ := List.cons_eq_cons.mp ha2
      exact List.cons_ne_nil _ _ (List.append_eq_nil.mp hbl.symm).2
  · cases c2 with
    | nil =>
      rw [List.append_nil] at hc1
      subst hc1
      exact ⟨hc, hs⟩
    | cons hd tl =>
      rw [List.cons_append] at hc2
      obtain ⟨hhd, _⟩ := List.cons_eq_cons.mp hc2
      exact hB p g2 tl (by rw [hc1, ← hhd])

lemma step_ok (s : St) (e : Ev) (t : List Act)
    (hacc : accepts s e = true) (hI : Inv s t) (hA : TraceA t) (hB : TraceB t) :
    Inv (step s e).1 (t ++ (step s e).2) ∧ TraceA (t ++ (step s e).2) ∧
      TraceB (t ++ (step s e).2) := by
  obtain ⟨ph, en, tr, h, p, ng⟩ := s
  obtain ⟨hstarts, hcancels, hhandle, hspawn, hspawnLt, hspawnSorted, hfresh, hphase⟩ := hI
  dsimp only at hstarts hcancels hhandle hspawn hspawnLt hfresh
  cases ph <;> cases e <;> simp [accepts] at hacc
  -- firstStart, cmdStart
  · obtain ⟨hh, hp, htr, hng⟩ := hphase
    subst hh hp htr hng
    simp only [step]
    rw [List.append_nil]
    exact ⟨⟨hstarts, hcancels, hhandle, hspawn, hspawnLt, hspawnSorted, hfresh,
      by simp [phaseInv]⟩, hA, hB⟩
  -- firstStart, cmdStop
  · obtain ⟨hh, hp, htr, hng⟩ := hphase
    subst hh hp htr hng
    simp only [step]
    rw [List.append_nil]
    exact ⟨⟨hstarts, hcancels, hhandle, hspawn, hspawnLt, hspawnSorted, hfresh,
      by simp [phaseInv]⟩, hA, hB⟩
  -- firstStart, cmdRestart
  · obtain ⟨hh, hp, htr, hng⟩ := hphase
    subst hh hp htr hng
    cases en
    · simp only [step, Bool.false_eq_true, if_false]
      refine ⟨⟨?_, ?_, hhandle, ?_, ?_, ?_, nofun, by simp [phaseInv]⟩, ?_, ?_⟩
      · simpa [startsOf_append, startsOf] using hstarts
      · simpa [cancelsOf_append, cancelsOf] using hcancels
      · simpa [spawnsOf_append, spawnsOf, consumesOf_append, consumesOf] using hspawn
      · simpa [spawnsOf_append, spawnsOf] using hspawnLt
      · simpa [spawnsOf_append, spawnsOf] using hspawnSorted
      · exact traceA_append_no_start hA (by simp [startsOf])
      · exact traceB_append_no_start hB (by simp [startsOf])
    · simp only [step, if_true]
      rw [List.append_nil]
      exact ⟨⟨hstarts, hcancels, hhandle, hspawn, hspawnLt, hspawnSorted, hfresh,
        by simp [phaseInv]⟩, hA, hB⟩
  -- firstStart, cancel
  · obtain ⟨hh, hp, htr, hng⟩ := hphase
    subst hh hp htr hng
    simp only [step]
    rw [List.append_nil]
    exact ⟨⟨hstarts, hcancels, hhandle, hspawn, hspawnLt, hspawnSorted, hfresh,
      by simp [phaseInv]⟩, hA, hB⟩
  -- subseq, cmdStart
  · obtain ⟨hen, hh, hp, htr⟩ := hphase
    subst hen hh hp htr
    simp only [step]
    rw [List.append_nil]
    exact ⟨⟨hstarts, hcancels, hhandle, hspawn, hspawnLt, hspawnSorted, hfresh,
      by simp [phaseInv]⟩, hA, hB⟩
  -- subseq, cmdStop
  · obtain ⟨hen, hh, hp, htr⟩ := hphase
    subst hen hh hp htr
    simp only [step]
    rw [List.append_nil]
    exact ⟨⟨hstarts, hcancels, hhandle, hspawn, hspawnLt, hspawnSorted, hfresh,
      by simp [phaseInv]⟩, hA, hB⟩
  -- subseq, cmdRestart
  · obtain ⟨hen, hh, hp, htr⟩ := hphase
    subst hen hh hp htr
    simp only [step, Bool.false_eq_true, if_false]
    rw [List.append_nil]
    exact ⟨⟨hstarts, hcancels, hhandle, hspawn, hspawnLt, hspawnSorted, hfresh,
      by simp [phaseInv]⟩, hA, hB⟩
  -- subseq, cancel
  · obtain ⟨hen, hh, hp, htr⟩ := hphase
    subst hen hh hp htr
    simp only [step, cancelActs]
    rw [List.append_nil]
    exact ⟨⟨hstarts, hcancels, hhandle, hspawn, hspawnLt, hspawnSorted, hfresh,
      by simp [phaseInv]⟩, hA, hB⟩
  -- awaitHints, cancel
  · obtain ⟨hen, htr1, htr0⟩ := hphase
    subst hen
    cases tr
    · obtain ⟨hh, hp⟩ := htr0 rfl
      subst hh hp
      simp only [step, cancelActs]
      rw [List.append_nil]
      exact ⟨⟨hstarts, hcancels, hhandle, hspawn, hspawnLt, hspawnSorted, hfresh,
        by simp [phaseInv]⟩, hA, hB⟩
    · obtain ⟨hsome, hpe⟩ := htr1 rfl
      dsimp only at hsome hpe
      cases h with
      | none => simp at hsome
      | some g =>
        subst hpe
        have hg := hhandle g rfl
        simp only [step, cancelActs]
        refine ⟨⟨?_, ?_, nofun, ?_, ?_, ?_, nofun, by simp [phaseInv]⟩, ?_, ?_⟩
        · simpa [startsOf_append, startsOf] using hstarts
        · simp only [cancelsOf_append, cancelsOf, hcancels]
          rw [← List.range_succ]
          exact congrArg List.range hg
        · simpa [spawnsOf_append, spawnsOf, consumesOf_append, consumesOf] using hspawn
        · simpa [spawnsOf_append, spawnsOf] using hspawnLt
        · simpa [spawnsOf_append, spawnsOf] using hspawnSorted
        · exact traceA_append_no_start hA (by simp [startsOf])
        · exact traceB_append_no_start hB (by simp [startsOf])
  -- awaitHints, resOk
  · obtain ⟨hen, htr1, htr0⟩ := hphase
    subst hen
    simp only [step]
    rw [List.append_nil]
    exact ⟨⟨hstarts, hcancels, hhandle, hspawn, hspawnLt, hspawnSorted, hfresh,
      ⟨rfl, htr1, htr0⟩⟩, hA, hB⟩
  -- awaitHints, resErr
  · obtain ⟨hen, htr1, htr0⟩ := hphase
    subst hen
    simp only [step, contPhase, if_true]
    refine ⟨⟨?_, ?_, hhandle, ?_, ?_, ?_, ?_, ⟨rfl, htr1, htr0⟩⟩, ?_, ?_⟩
    · simpa [startsOf_append, startsOf] using hstarts
    · simpa [cancelsOf_append, cancelsOf] using hcancels
    · simpa [spawnsOf_append, spawnsOf, consumesOf_append, consumesOf] using hspawn
    · simpa [spawnsOf_append, spawnsOf] using hspawnLt
    · simpa [spawnsOf_append, spawnsOf] using hspawnSorted
    · simpa [spawnsOf_append, spawnsOf] using hfresh
    · exact traceA_append_no_start hA (by simp [startsOf])
    · exact traceB_append_no_start hB (by simp [startsOf])
  -- awaitKey, cancel
  · obtain ⟨hen, htr1, htr0⟩ := hphase
    subst hen
    cases tr
    · obtain ⟨hh, hp⟩ := htr0 rfl
      subst hh hp
      simp only [step, cancelActs]
      rw [List.append_nil]
      exact ⟨⟨hstarts, hcancels, hhandle, hspawn, hspawnLt, hspawnSorted, hfresh,
        by simp [phaseInv]⟩, hA, hB⟩
    · obtain ⟨hsome, hpe⟩ := htr1 rfl
      dsimp only at hsome hpe
      cases h with
      | none => simp at hsome
      | some g =>
        subst hpe
        have hg := hhandle g rfl
        simp only [step, cancelActs]
        refine ⟨⟨?_, ?_, nofun, ?_, ?_, ?_, nofun, by simp [phaseInv]⟩, ?_, ?_⟩
        · simpa [startsOf_append, startsOf] using hstarts
        · simp only [cancelsOf_append, cancelsOf, hcancels]
          rw [← List.range_succ]
          exact congrArg List.range hg
        · simpa [spawnsOf_append, spawnsOf, consumesOf_append, consumesOf] using hspawn
        · simpa [spawnsOf_append, spawnsOf] using hspawnLt
        · simpa [spawnsOf_append, spawnsOf] using hspawnSorted
        · exact traceA_append_no_start hA (by simp [startsOf])
        · exact traceB_append_no_start hB (by simp [startsOf])
  -- awaitKey, resOk
  · obtain ⟨hen, htr1, htr0⟩ := hphase
    subst hen
    simp only [step]
    rw [List.append_nil]
    exact ⟨⟨hstarts, hcancels, hhandle, hspawn, hspawnLt, hspawnSorted, hfresh,
      ⟨rfl, htr1, htr0⟩⟩, hA, hB⟩
  -- awaitKey, resErr
  · obtain ⟨hen, htr1, htr0⟩ := hphase
    subst hen
    simp only [step, contPhase, if_true]
    refine ⟨⟨?_, ?_, hhandle, ?_, ?_, ?_, ?_, ⟨rfl, htr1, htr0⟩⟩, ?_, ?_⟩
    · simpa [startsOf_append, startsOf] using hstarts
    · simpa [cancelsOf_append, cancelsOf] using hcancels
    · simpa [spawnsOf_append, spawnsOf, consumesOf_append, consumesOf] using hspawn
    · simpa [spawnsOf_append, spawnsOf] using hspawnLt
    · simpa [spawnsOf_append, spawnsOf] using hspawnSorted
    · simpa [spawnsOf_append, spawnsOf] using hfresh
    · exact traceA_append_no_start hA (by simp [startsOf])
    · exact traceB_append_no_start hB (by simp [startsOf])
  -- awaitConf, cancel
  · obtain ⟨hen, htr1, htr0⟩ := hphase
    subst hen
    cases tr
    · obtain ⟨hh, hp⟩ := htr0 rfl
      subst hh hp
      simp only [step, cancelActs]
      rw [List.append_nil]
      exact ⟨⟨hstarts, hcancels, hhandle, hspawn, hspawnLt, hspawnSorted, hfresh,
        by simp [phaseInv]⟩, hA, hB⟩
    · obtain ⟨hsome, hpe⟩ := htr1 rfl
      dsimp only at hsome hpe
      cases h with
      | none => simp at hsome
      | some g =>
        subst hpe
        have hg := hhandle g rfl
        simp only [step, cancelActs]
        refine ⟨⟨?_, ?_, nofun, ?_, ?_, ?_, nofun, by simp [phaseInv]⟩, ?_, ?_⟩
        · simpa [startsOf_append, startsOf] using hstarts
        · simp only [cancelsOf_append, cancelsOf, hcancels]
          rw [← List.range_succ]
          exact congrArg List.range hg
        · simpa [spawnsOf_append, spawnsOf, consumesOf_append, consumesOf] using hspawn
        · simpa [spawnsOf_append, spawnsOf] using hspawnLt
        · simpa [spawnsOf_append, spawnsOf] using hspawnSorted
        · exact traceA_append_no_start hA (by simp [startsOf])
        · exact traceB_append_no_start hB (by simp [startsOf])
  -- awaitConf, resOk
  · obtain ⟨hen, htr1, htr0⟩ := hphase
    subst hen
    cases tr
    · obtain ⟨hh, hp⟩ := htr0 rfl
      subst hh hp
      simp only [step, Bool.false_eq_true, if_false]
      rw [List.append_nil]
      exact ⟨⟨hstarts, hcancels, hhandle, hspawn, hspawnLt, hspawnSorted, hfresh,
        by simp [phaseInv]⟩, hA, hB⟩
    · obtain ⟨hsome, hpe⟩ := htr1 rfl
      dsimp only at hsome hpe
      cases h with
      | none => simp at hsome
      | some g =>
        subst hpe
        have hg := hhandle g rfl
        simp only [step, if_true, cancelActs, consumeActs]
        refine ⟨⟨?_, ?_, nofun, ?_, ?_, ?_, nofun, by simp [phaseInv]⟩, ?_, ?_⟩
        · simpa [startsOf_append, startsOf] using hstarts
        · simp only [cancelsOf_append, cancelsOf, hcancels]
          rw [← List.range_succ]
          exact congrArg List.range hg
        · simp only [spawnsOf_append, spawnsOf, consumesOf_append, consumesOf,
            List.append_nil]
          simpa using hspawn
        · simpa [spawnsOf_append, spawnsOf] using hspawnLt
        · simpa [spawnsOf_append, spawnsOf] using hspawnSorted
        · exact traceA_append_no_start hA (by simp [startsOf])
        · exact traceB_append_no_start hB (by simp [startsOf])
  -- awaitConf, resErr
  · obtain ⟨hen, htr1, htr0⟩ := hphase
    subst hen
    simp only [step, contPhase, if_true]
    refine ⟨⟨?_, ?_, hhandle, ?_, ?_, ?_, ?_, ⟨rfl, htr1, htr0⟩⟩, ?_, ?_⟩
    · simpa [startsOf_append, startsOf] using hstarts
    · simpa [cancelsOf_append, cancelsOf] using hcancels
    · simpa [spawnsOf_append, spawnsOf, consumesOf_append, consumesOf] using hspawn
    · simpa [spawnsOf_append, spawnsOf] using hspawnLt
    · simpa [spawnsOf_append, spawnsOf] using hspawnSorted
    · simpa [spawnsOf_append, spawnsOf] using hfresh
    · exact traceA_append_no_start hA (by simp [startsOf])
    · exact traceB_append_no_start hB (by simp [startsOf])
  -- awaitStart, resOk
  · obtain ⟨hen, htr, hh, hp⟩ := hphase
    subst hen htr hh hp
    simp only [step]
    refine ⟨⟨?_, ?_, ?_, ?_, ?_, ?_, ?_, by simp [phaseInv]⟩, ?_, ?_⟩
    · simp only [startsOf_append, startsOf, hstarts]
      exact (List.range_succ ng).symm
    · simpa [cancelsOf_append, cancelsOf] using hcancels
    · intro g2 hg2
      cases hg2
      rfl
    · simpa [spawnsOf_append, spawnsOf, consumesOf_append, consumesOf] using hspawn
    · intro x hx
      have hx2 : x ∈ spawnsOf t := by
        simpa [spawnsOf_append, spawnsOf] using hx
      exact Nat.lt_succ_of_lt (hspawnLt x hx2)
    · simpa [spawnsOf_append, spawnsOf] using hspawnSorted
    · intro g2 hg2 _ x hx
      cases hg2
      have hx2 : x ∈ spawnsOf t := by
        simpa [spawnsOf_append, spawnsOf] using hx
      exact hspawnLt x hx2
    · exact traceA_append_single_start hA (by rw [hcancels, hstarts])
    · exact traceB_append_single_start hB (hcancels.trans hstarts.symm)
        (by simpa using hspawn.symm)
  -- awaitStart, resErr
  · obtain ⟨hen, htr, hh, hp⟩ := hphase
    subst hen htr hh hp
    simp only [step, contPhase, if_true]
    refine ⟨⟨?_, ?_, hhandle, ?_, ?_, ?_, nofun, by simp [phaseInv]⟩, ?_, ?_⟩
    · simpa [startsOf_append, startsOf] using hstarts
    · simpa [cancelsOf_append, cancelsOf] using hcancels
    · simpa [spawnsOf_append, spawnsOf, consumesOf_append, consumesOf] using hspawn
    · simpa [spawnsOf_append, spawnsOf] using hspawnLt
    · simpa [spawnsOf_append, spawnsOf] using hspawnSorted
    · exact traceA_append_no_start hA (by simp [startsOf])
    · exact traceB_append_no_start hB (by simp [startsOf])
  -- awaitReady, resOk
  · obtain ⟨hen, htr, hsome, hp⟩ := hphase
    subst hen htr hp
    cases h with
    | none => simp at hsome
    | some g =>
      have hg := hhandle g rfl
      simp only [step]
      refine ⟨⟨?_, ?_, hhandle, ?_, ?_, ?_, ?_, by simp [phaseInv]⟩, ?_, ?_⟩
      · simpa [startsOf_append, startsOf] using hstarts
      · simpa [cancelsOf_append, cancelsOf] using hcancels
      · simp only [spawnsOf_append, spawnsOf, consumesOf_append, consumesOf,
          List.append_nil]
        rw [hspawn]
        simp
      · intro x hx
        have hx2 : x ∈ spawnsOf t ∨ x = g := by
          simpa [spawnsOf_append, spawnsOf] using hx
        dsimp only
        rcases hx2 with hx2 | hx2
        · exact hspawnLt x hx2
        · rw [hx2]
          exact Nat.lt_of_lt_of_le (Nat.lt_succ_self g) (le_of_eq hg)
      · rw [spawnsOf_append]
        refine List.pairwise_append.mpr ⟨hspawnSorted, ?_, ?_⟩
        · simp [spawnsOf]
        · intro x hx y hy
          have hy2 : y = g := by simpa [spawnsOf] using hy
          rw [hy2]
          exact hfresh g rfl rfl x hx
      · intro g2 hg2 hpe
        exact absurd hpe (by simp)
      · exact traceA_append_no_start hA (by simp [startsOf])
      · exact traceB_append_no_start hB (by simp [startsOf])
  -- awaitReady, resErr
  · obtain ⟨hen, htr, hsome, hp⟩ := hphase
    subst hen htr hp
    cases h with
    | none => simp at hsome
    | some g =>
      have hg := hhandle g rfl
      simp only [step, contPhase, if_true, cancelActs]
      refine ⟨⟨?_, ?_, nofun, ?_, ?_, ?_, nofun, by simp [phaseInv]⟩, ?_, ?_⟩
      · simpa [startsOf_append, startsOf] using hstarts
      · simp only [cancelsOf_append, cancelsOf, hcancels]
        rw [← List.range_succ]
        exact congrArg List.range hg
      · simpa [spawnsOf_append, spawnsOf, consumesOf_append, consumesOf] using hspawn
      · simpa [spawnsOf_append, spawnsOf] using hspawnLt
      · simpa [spawnsOf_append, spawnsOf] using hspawnSorted
      · exact traceA_append_no_start hA (by simp [startsOf])
      · exact traceB_append_no_start hB (by simp [startsOf])
  -- active, cmdStart
  · obtain ⟨hen, htr, hsome, hp⟩ := hphase
    subst hen htr
    simp only [step]
    rw [List.append_nil]
    exact ⟨⟨hstarts, hcancels, hhandle, hspawn, hspawnLt, hspawnSorted, hfresh,
      ⟨rfl, rfl, hsome, hp⟩⟩, hA, hB⟩
  -- active, cmdStop
  · obtain ⟨hen, htr, hsome, hp⟩ := hphase
    subst hen htr
    dsimp only at hsome hp
    cases h with
    | none => simp at hsome
    | some g =>
      subst hp
      have hg := hhandle g rfl
      simp only [step, cancelActs, consumeActs]
      refine ⟨⟨?_, ?_, nofun, ?_, ?_, ?_, nofun, by simp [phaseInv]⟩, ?_, ?_⟩
      · simpa [startsOf_append, startsOf] using hstarts
      · simp only [cancelsOf_append, cancelsOf, hcancels]
        rw [← List.range_succ]
        exact congrArg List.range hg
      · simp only [spawnsOf_append, spawnsOf, consumesOf_append, consumesOf,
          List.append_nil]
        simpa using hspawn
      · simpa [spawnsOf_append, spawnsOf] using hspawnLt
      · simpa [spawnsOf_append, spawnsOf] using hspawnSorted
      · exact traceA_append_no_start hA (by simp [startsOf])
      · exact traceB_append_no_start hB (by simp [startsOf])
  -- active, cmdRestart
  · obtain ⟨hen, htr, hsome, hp⟩ := hphase
    subst hen htr
    simp only [step, contPhase, if_true]
    rw [List.append_nil]
    exact ⟨⟨hstarts, hcancels, hhandle, hspawn, hspawnLt, hspawnSorted, hfresh,
      by simp [phaseInv]; exact ⟨hsome, hp⟩⟩, hA, hB⟩
  -- active, cancel
  · obtain ⟨hen, htr, hsome, hp⟩ := hphase
    subst hen htr
    dsimp only at hsome hp
    cases h with
    | none => simp at hsome
    | some g =>
      subst hp
      have hg := hhandle g rfl
      simp only [step, cancelActs, consumeActs]
      refine ⟨⟨?_, ?_, nofun, ?_, ?_, ?_, nofun, by simp [phaseInv]⟩, ?_, ?_⟩
      · simpa [startsOf_append, startsOf] using hstarts
      · simp only [cancelsOf_append, cancelsOf, hcancels]
        rw [← List.range_succ]
        exact congrArg List.range hg
      · simp only [spawnsOf_append, spawnsOf, consumesOf_append, consumesOf,
          List.append_nil]
        simpa using hspawn
      · simpa [spawnsOf_append, spawnsOf] using hspawnLt
      · simpa [spawnsOf_append, spawnsOf] using hspawnSorted
      · exact traceA_append_no_start hA (by simp [startsOf])
      · exact traceB_append_no_start hB (by simp [startsOf])
  -- active, exitErr
  · obtain ⟨hen, htr, hsome, hp⟩ := hphase
    subst hen htr
    dsimp only at hsome hp
    cases h with
    | none => simp at hsome
    | some g =>
      subst hp
      have hg := hhandle g rfl
      simp only [step, contPhase, if_true, cancelActs, consumeActs]
      refine ⟨⟨?_, ?_, nofun, ?_, ?_, ?_, nofun, by simp [phaseInv]⟩, ?_, ?_⟩
      · simpa [startsOf_append, startsOf] using hstarts
      · simp only [cancelsOf_append, cancelsOf, hcancels]
        rw [← List.range_succ]
        exact congrArg List.range hg
      · simp only [spawnsOf_append, spawnsOf, consumesOf_append, consumesOf,
          List.append_nil]
        simpa using hspawn
      · simpa [spawnsOf_append, spawnsOf] using hspawnLt
      · simpa [spawnsOf_append, spawnsOf] using hspawnSorted
      · exact traceA_append_no_start hA (by simp [startsOf])
      · exact traceB_append_no_start hB (by simp [startsOf])

lemma run_append (s : St) :
    ∀ a b, run s (a ++ b) =
      ((run (run s a).1 b).1, (run s a).2 ++ (run (run s a).1 b).2)
  | [], b => by simp [run]
  | e :: a, b => by
    simp [run, run_append (step s e).1 a b]

lemma Valid_append (s : St) :
    ∀ a b, Valid s (a ++ b) = (Valid s a && Valid (run s a).1 b)
  | [], b => by simp [Valid, run]
  | e :: a, b => by
    simp [Valid, run, Valid_append (step s e).1 a b, Bool.and_assoc]

lemma traceA_nil : TraceA [] := by
  intro p hp
  rw [List.prefix_nil.mp hp]
  simp [startsOf, cancelsOf]

lemma traceB_nil : TraceB [] := by
  intro p g q hpq
  exact (List.cons_ne_nil _ _ ((List.append_eq_nil.mp hpq.symm).2)).elim

lemma init_inv (enabled0 : Bool) : Inv (looperInit enabled0) [] := by
  refine ⟨by simp [startsOf, looperInit], by simp [cancelsOf, looperInit], nofun,
    by simp [spawnsOf, consumesOf, looperInit], by simp [spawnsOf], by simp [spawnsOf],
    nofun, ?_⟩
  exact ⟨rfl, rfl, rfl, rfl⟩

lemma run_ok : ∀ (events : List Ev) (s : St) (t : List Act),
    Valid s events = true → Inv s t → TraceA t → TraceB t →
    Inv (run s events).1 (t ++ (run s events).2) ∧
      TraceA (t ++ (run s events).2) ∧ TraceB (t ++ (run s events).2)
  | [], s, t, _, hI, hA, hB => by
    simpa [run] using ⟨hI, hA, hB⟩
  | e :: r, s, t, hv, hI, hA, hB => by
    simp only [Valid, Bool.and_eq_true] at hv
    obtain ⟨hacc, hv2⟩ := hv
    obtain ⟨hI2, hA2, hB2⟩ := step_ok s e t hacc hI hA hB
    have ih := run_ok r (step s e).1 (t ++ (step s e).2) hv2 hI2 hA2 hB2
    simpa [run, List.append_assoc] using ih

lemma run_inv {enabled0 : Bool} {events : List Ev}
    (hv : Valid (looperInit enabled0) events = true) :
    Inv (run (looperInit enabled0) events).1 (run (looperInit enabled0) events).2 ∧
      TraceA (run (looperInit enabled0) events).2 ∧
      TraceB (run (looperInit enabled0) events).2 := by
  have h := run_ok events (looperInit enabled0) [] hv (init_inv enabled0)
    traceA_nil traceB_nil
  simpa using h

lemma reach_phaseInv {s : St} (hs : Reach s) : phaseInv s := by
  obtain ⟨en, evs, hv, hrun⟩ := hs
  have h := (run_inv hv).1.hphase
  rwa [hrun] at h

/-! ### Claim theorems: supervisor loop -/

/-- Claim C1: over every valid schedule, (1) on every trace prefix the number
of launched instances exceeds the number of cancelled ones by at most one —
at most one resolver process handle is live at any instant; (2) at every
launch point, every previously launched instance has been cancelled and every
previously spawned exit signal has been consumed — in particular, on the
deferred-teardown path after a `Restart`, the previous handle's cancel and
exit-signal consumption precede the next `conf.Start`; (3) each generation's
exit signal is consumed at most once (and, by (2), exactly once before any
later launch). -/
theorem claim_C1_no_overlap :
    ∀ (enabled0 : Bool) (events : List Ev),
      Valid (looperInit enabled0) events = true →
      (∀ pre, pre <+: (run (looperInit enabled0) events).2 →
        (startsOf pre).length ≤ (cancelsOf pre).length + 1) ∧
      (∀ pre g post,
        (run (looperInit enabled0) events).2 = pre ++ Act.confStart g :: post →
        cancelsOf pre = startsOf pre ∧ consumesOf pre = spawnsOf pre) ∧
      (∀ g, (consumesOf (run (looperInit enabled0) events).2).count g ≤ 1) := by
  intro en evs hv
  obtain ⟨hI, hA, hB⟩ := run_inv hv
  refine ⟨hA, hB, ?_⟩
  intro g
  have hnodup : (spawnsOf (run (looperInit en) evs).2).Nodup :=
    hI.hspawnSorted.imp Nat.ne_of_lt
  have h2 := List.nodup_iff_count_le_one.mp hnodup g
  have h1 : (consumesOf (run (looperInit en) evs).2).count g ≤
      (spawnsOf (run (looperInit en) evs).2).count g := by
    rw [hI.hspawn, List.count_append]
    omega
  omega

/-- Witness for claim C1: the schedule with a full restart cycle followed by
cancellation is valid, and the conclusion holds of its trace. -/
theorem claim_C1_no_overlap_witness :
    Valid (looperInit false) eventsRestartCycle = true ∧
    ((∀ pre, pre <+: (run (looperInit false) eventsRestartCycle).2 →
        (startsOf pre).length ≤ (cancelsOf pre).length + 1) ∧
      (∀ pre g post,
        (run (looperInit false) eventsRestartCycle).2 = pre ++ Act.confStart g :: post →
        cancelsOf pre = startsOf pre ∧ consumesOf pre = spawnsOf pre) ∧
      (∀ g, (consumesOf (run (looperInit false) eventsRestartCycle).2).count g ≤ 1)) :=
  ⟨by decide, claim_C1_no_overlap false eventsRestartCycle (by decide)⟩

/-- Claim C2 as amended: a `Restart` delivered while disabled leaves the
enabled flag unchanged and launches nothing in both disabled states, but only
`AwaitingFirstEnable` re-invokes the readiness callback; in
`AwaitingReenable` the loop merely logs and the callback is not invoked. -/
theorem claim_C2_restart_while_disabled :
    ∀ s : St, Reach s →
      (s.phase = .firstStart → s.enabled = false →
        (step s .cmdRestart).1 = s ∧ (step s .cmdRestart).2 = [.signalReady]) ∧
      (s.phase = .subseq →
        (step s .cmdRestart).1 = s ∧ (step s .cmdRestart).2 = []) := by
  intro s hs
  have hphi := reach_phaseInv hs
  obtain ⟨ph, en, tr, h, p, ng⟩ := s
  constructor
  · intro hph hen
    dsimp only at hph hen
    subst hph hen
    simp [step]
  · intro hph
    dsimp only at hph
    subst hph
    obtain ⟨hen, _, _, _⟩ := hphi
    dsimp only at hen
    subst hen
    simp [step]

/-- Witness for claim C2: the initial disabled state signals readiness on
`Restart`, while the reachable `AwaitingReenable` state (after activation and
`Stop`) emits nothing. -/
theorem claim_C2_restart_while_disabled_witness :
    (Reach (looperInit false) ∧
      (step (looperInit false) .cmdRestart).2 = [Act.signalReady]) ∧
    (Reach (run (looperInit false) eventsToReenable).1 ∧
      (step (run (looperInit false) eventsToReenable).1 .cmdRestart).2 = []) := by
  have r1 : Reach (looperInit false) := ⟨false, [], rfl, rfl⟩
  have r2 : Reach (run (looperInit false) eventsToReenable).1 :=
    ⟨false, eventsToReenable, by decide, rfl⟩
  refine ⟨⟨r1, ?_⟩, ⟨r2, ?_⟩⟩
  · exact ((claim_C2_restart_while_disabled (looperInit false) r1).1 rfl rfl).2
  · exact ((claim_C2_restart_while_disabled _ r2).2 (by decide)).2

/-- Claim C2, counterexample to the claim as stated: in the reachable
`AwaitingReenable` state a `Restart` emits no action at all — the readiness
callback is not re-invoked (the full run's trace holds a single readiness
signal, from the earlier activation, not a second one). -/
theorem claim_C2_restart_while_disabled_counterexample :
    Valid (looperInit false) (eventsToReenable ++ [.cmdRestart]) = true ∧
    (run (looperInit false) eventsToReenable).1.phase = .subseq ∧
    (run (looperInit false) eventsToReenable).1.enabled = false ∧
    (step (run (looperInit false) eventsToReenable).1 .cmdRestart).2 = [] ∧
    (run (looperInit false) (eventsToReenable ++ [.cmdRestart])).2.count
      Act.signalReady = 1 := by
  decide

/-- Claim C7: when cancellation arrives while the loop is `Active`, the loop
cancels the running resolver and consumes its exit signal, in that order, and
returns; over the whole trace that generation's exit signal is consumed
exactly once. -/
theorem claim_C7_cancel_in_active_drains_once :
    ∀ (enabled0 : Bool) (es : List Ev),
      Valid (looperInit enabled0) (es ++ [.cancel]) = true →
      (run (looperInit enabled0) es).1.phase = .active →
      ∃ g, (run (looperInit enabled0) es).1.handle = some g ∧
        (run (looperInit enabled0) (es ++ [.cancel])).1.phase = .terminated ∧
        (run (looperInit enabled0) (es ++ [.cancel])).2 =
          (run (looperInit enabled0) es).2 ++ [.cancelHandle g, .consumeExit g] ∧
        (consumesOf (run (looperInit enabled0) (es ++ [.cancel])).2).count g = 1 := by
  intro en es hv hph
  have hv1 : Valid (looperInit en) es = true := by
    rw [Valid_append, Bool.and_eq_true] at hv
    exact hv.1
  obtain ⟨hI, hA, hB⟩ := run_inv hv1
  have happ := run_append (looperInit en) es [Ev.cancel]
  rcases hrun : run (looperInit en) es with ⟨s1, t1⟩
  rw [hrun] at hI hph happ
  dsimp only at hI hph happ ⊢
  obtain ⟨ph1, en1, tr1, h1, p1, ng1⟩ := s1
  dsimp only at hph
  subst hph
  obtain ⟨hen, htr, hsome, hp⟩ := hI.hphase
  dsimp only at hen htr hsome hp
  subst hen htr
  cases h1 with
  | none => simp at hsome
  | some g =>
    subst hp
    have hnodup : (spawnsOf t1).Nodup := hI.hspawnSorted.imp Nat.ne_of_lt
    have hcnt := List.nodup_iff_count_le_one.mp hnodup g
    have hsc : (spawnsOf t1).count g = (consumesOf t1).count g + 1 := by
      have hsp := hI.hspawn
      dsimp only at hsp
      rw [hsp, List.count_append]
      simp
    have hstep : run (St.mk .active true false (some g) (some g) ng1) [Ev.cancel] =
        (St.mk .terminated true false none none ng1,
          [Act.cancelHandle g, Act.consumeExit g]) := by
      simp [run, step, cancelActs, consumeActs]
    rw [hstep] at happ
    refine ⟨g, rfl, ?_, ?_, ?_⟩
    · rw [happ]
    · rw [happ]
    · rw [happ]
      dsimp only
      rw [consumesOf_append]
      have hc2 : consumesOf [Act.cancelHandle g, Act.consumeExit g] = [g] := rfl
      rw [hc2, List.count_append]
      have hz : (consumesOf t1).count g = 0 := by omega
      simp [hz]

/-- Witness for claim C7: the activation schedule followed by a cancellation. -/
theorem claim_C7_cancel_in_active_drains_once_witness :
    Valid (looperInit false) (eventsToActive ++ [.cancel]) = true ∧
    (run (looperInit false) eventsToActive).1.phase = .active ∧
    (∃ g, (run (looperInit false) eventsToActive).1.handle = some g ∧
      (run (looperInit false) (eventsToActive ++ [.cancel])).1.phase = .terminated ∧
      (run (looperInit false) (eventsToActive ++ [.cancel])).2 =
        (run (looperInit false) eventsToActive).2 ++ [.cancelHandle g, .consumeExit g] ∧
      (consumesOf (run (looperInit false) (eventsToActive ++ [.cancel])).2).count g
        = 1) :=
  ⟨by decide, by decide,
    claim_C7_cancel_in_active_drains_once false eventsToActive (by decide) (by decide)⟩

lemma step_not_terminated (s : St) (e : Ev) (he : e ≠ Ev.cancel)
    (hs : s.phase ≠ .terminated) : (step s e).1.phase ≠ .terminated := by
  obtain ⟨ph, en, tr, h, p, ng⟩ := s
  cases e
  case cancel => exact absurd rfl he
  all_goals
    cases ph <;>
      first
      | exact absurd rfl hs
      | (cases en <;> cases tr <;> simp [step, contPhase])

lemma run_not_terminated : ∀ (events : List Ev) (s : St),
    Valid s events = true → Ev.cancel ∉ events → s.phase ≠ .terminated →
    (run s events).1.phase ≠ .terminated
  | [], s, _, _, hs => by simpa [run] using hs
  | e :: r, s, hv, hmem, hs => by
    simp only [Valid, Bool.and_eq_true] at hv
    have he : e ≠ Ev.cancel := by
      intro hc
      exact hmem (by rw [hc]; exact List.mem_cons_self _ _)
    have h1 := step_not_terminated s e he hs
    have h2 := run_not_terminated r (step s e).1 hv.2
      (fun hm => hmem (List.mem_cons_of_mem _ hm)) h1
    simpa [run] using h2

/-- Claim C8: every setup, launch, readiness, or unexpected-exit failure is
handled locally — the failing step emits the 10-second interruptible backoff
(preceded by plaintext-fallback engagement except for setup failures, and by
the teardown of the failed instance where one exists) and returns to the
setup phase for an automatic retry; no failure terminates the loop, and a run
without a cancellation event never reaches the terminated state. -/
theorem claim_C8_failure_recovery :
    (∀ s : St, Reach s →
      ((s.phase = .awaitHints ∨ s.phase = .awaitKey ∨ s.phase = .awaitConf) →
        (step s .resErr).1.phase = .awaitHints ∧ (step s .resErr).2 = [.wait 10]) ∧
      (s.phase = .awaitStart →
        (step s .resErr).1.phase = .awaitHints ∧
        (step s .resErr).2 = [.confStartFail, .useUnencrypted true, .wait 10]) ∧
      (s.phase = .awaitReady →
        ∃ g, s.handle = some g ∧ (step s .resErr).1.phase = .awaitHints ∧
          (step s .resErr).2 = [.cancelHandle g, .useUnencrypted true, .wait 10]) ∧
      (s.phase = .active →
        ∃ g, s.handle = some g ∧ (step s .exitErr).1.phase = .awaitHints ∧
          (step s .exitErr).2 =
            [.consumeExit g, .cancelHandle g, .useUnencrypted true, .wait 10])) ∧
    (∀ (enabled0 : Bool) (events : List Ev),
      Valid (looperInit enabled0) events = true → Ev.cancel ∉ events →
      (run (looperInit enabled0) events).1.phase ≠ .terminated) := by
  constructor
  · intro s hs
    have hphi := reach_phaseInv hs
    obtain ⟨ph, en, tr, h, p, ng⟩ := s
    refine ⟨?_, ?_, ?_, ?_⟩
    · intro hph
      rcases hph with hph | hph | hph <;> dsimp only at hph <;> subst hph <;>
        obtain ⟨hen, _, _⟩ := hphi <;> dsimp only at hen <;> subst hen <;>
        simp [step, contPhase]
    · intro hph
      dsimp only at hph
      subst hph
      obtain ⟨hen, _, _, _⟩ := hphi
      dsimp only at hen
      subst hen
      simp [step, contPhase]
    · intro hph
      dsimp only at hph
      subst hph
      obtain ⟨hen, htr, hsome, hp⟩ := hphi
      dsimp only at hen hsome
      subst hen
      cases h with
      | none => simp at hsome
      | some g => exact ⟨g, rfl, by simp [step, contPhase, cancelActs]⟩
    · intro hph
      dsimp only at hph
      subst hph
      obtain ⟨hen, htr, hsome, hp⟩ := hphi
      dsimp only at hen hsome hp
      subst hen
      cases h with
      | none => simp at hsome
      | some g =>
        subst hp
        exact ⟨g, rfl, by simp [step, contPhase, cancelActs, consumeActs]⟩
  · intro en evs hv hmem
    exact run_not_terminated evs (looperInit en) hv hmem (by simp [looperInit])

/-- Witness for claim C8: a reachable setup state retries after a setup
failure, and the activation run (which carries no cancellation) does not
terminate. -/
theorem claim_C8_failure_recovery_witness :
    Reach (run (looperInit false) [.cmdStart]).1 ∧
    ((step (run (looperInit false) [.cmdStart]).1 .resErr).1.phase = .awaitHints ∧
      (step (run (looperInit false) [.cmdStart]).1 .resErr).2 = [.wait 10]) ∧
    (run (looperInit false) eventsToActive).1.phase ≠ .terminated := by
  have r1 : Reach (run (looperInit false) [.cmdStart]).1 :=
    ⟨false, [.cmdStart], by decide, rfl⟩
  refine ⟨r1, ?_, ?_⟩
  · exact (claim_C8_failure_recovery.1 _ r1).1 (by decide)
  · exact claim_C8_failure_recovery.2 false eventsToActive (by decide) (by decide)

lemma stop_preserved : ∀ (events : List Ev) (s : St),
    Valid s events = true →
    (∀ e ∈ events, e ≠ Ev.cmdStart ∧ e ≠ Ev.cmdRestart) →
    s.enabled = false → s.handle = none → s.pendingExit = none →
    (s.phase = .firstStart ∨ s.phase = .subseq ∨ s.phase = .terminated) →
    (run s events).1.enabled = false ∧ (run s events).1.handle = none ∧
      (run s events).1.pendingExit = none
  | [], s, _, _, he, hh, hp, _ => by
    simp only [run]
    exact ⟨he, hh, hp⟩
  | e :: r, s, hv, hne, he, hh, hp, hph => by
    simp only [Valid, Bool.and_eq_true] at hv
    obtain ⟨hacc, hv2⟩ := hv
    have hne1 := hne e (List.mem_cons_self _ _)
    have hner : ∀ x ∈ r, x ≠ Ev.cmdStart ∧ x ≠ Ev.cmdRestart :=
      fun x hx => hne x (List.mem_cons_of_mem _ hx)
    obtain ⟨ph, en, tr, h, p, ng⟩ := s
    dsimp only at he hh hp hph
    subst he hh hp
    rcases hph with hph | hph | hph <;> subst hph <;> cases e <;>
      simp [accepts] at hacc <;>
      first
      | exact absurd rfl hne1.1
      | exact absurd rfl hne1.2
      | (simp only [run, step, cancelActs]
         exact stop_preserved r _ hv2 hner rfl rfl rfl (by simp))

/-- Claim C9: for every command sequence whose last delivered command is
`Stop`, after the whole schedule is processed the resolver is inactive (no
live handle, no outstanding exit signal) and the stored settings have
`Enabled = false`. -/
theorem claim_C9_stop_disables :
    ∀ (enabled0 : Bool) (es1 es2 : List Ev),
      Valid (looperInit enabled0) (es1 ++ Ev.cmdStop :: es2) = true →
      (∀ e ∈ es2, e ≠ Ev.cmdStart ∧ e ≠ Ev.cmdRestart) →
      (run (looperInit enabled0) (es1 ++ Ev.cmdStop :: es2)).1.enabled = false ∧
      (run (looperInit enabled0) (es1 ++ Ev.cmdStop :: es2)).1.handle = none ∧
      (run (looperInit enabled0) (es1 ++ Ev.cmdStop :: es2)).1.pendingExit = none := by
  intro en es1 es2 hv hne
  have hsplit : es1 ++ Ev.cmdStop :: es2 = (es1 ++ [Ev.cmdStop]) ++ es2 := by simp
  rw [hsplit] at hv ⊢
  rw [Valid_append, Bool.and_eq_true] at hv
  obtain ⟨hv1, hv2⟩ := hv
  rw [Valid_append, Bool.and_eq_true] at hv1
  obtain ⟨hv0, hvs⟩ := hv1
  obtain ⟨hI, hA, hB⟩ := run_inv hv0
  rw [run_append (looperInit en) (es1 ++ [Ev.cmdStop]) es2]
  have happ1 := run_append (looperInit en) es1 [Ev.cmdStop]
  rcases hrun : run (looperInit en) es1 with ⟨s1, t1⟩
  rw [hrun] at hI hvs happ1
  dsimp only at hI hvs happ1
  rw [happ1] at hv2 ⊢
  dsimp only at hv2 ⊢
  simp only [run, Valid, Bool.and_true, List.append_nil] at hv2 hvs ⊢
  have hphi := hI.hphase
  obtain ⟨ph1, en1, tr1, h1, p1, ng1⟩ := s1
  simp only [accepts, decide_eq_true_eq] at hvs
  rcases hvs with hph | hph | hph <;> subst hph
  · obtain ⟨hh, hp, htr, hng⟩ := hphi
    dsimp only at hh hp
    subst hh hp
    exact stop_preserved es2 _ hv2 hne (by simp [step]) (by simp [step])
      (by simp [step]) (by simp [step])
  · obtain ⟨hen, hh, hp, htr⟩ := hphi
    dsimp only at hen hh hp
    subst hen hh hp
    exact stop_preserved es2 _ hv2 hne (by simp [step]) (by simp [step])
      (by simp [step]) (by simp [step])
  · obtain ⟨hen, htr, hsome, hp⟩ := hphi
    dsimp only at hen hsome hp
    subst hen
    exact stop_preserved es2 _ hv2 hne (by simp [step]) (by simp [step])
      (by simp [step]) (by simp [step])

/-- Witness for claim C9: activate, then `Stop` as the final command. -/
theorem claim_C9_stop_disables_witness :
    Valid (looperInit false) (eventsToActive ++ Ev.cmdStop :: []) = true ∧
    ((run (looperInit false) (eventsToActive ++ Ev.cmdStop :: [])).1.enabled = false ∧
      (run (looperInit false) (eventsToActive ++ Ev.cmdStop :: [])).1.handle = none ∧
      (run (looperInit false) (eventsToActive ++ Ev.cmdStop :: [])).1.pendingExit
        = none) :=
  ⟨by decide, claim_C9_stop_disables false eventsToActive [] (by decide) (by simp)⟩

end Gluetun
